import Mathlib

/-!
# Verification of the Trade-Moon signal intake and order-execution core

Shallow embedding, in Lean 4, of the trading core of the Trade-Moon
repository (`signal_handler.py`, `webhook_receiver.py`, `email_reader.py`,
`bot_logic.py`), together with theorems settling the behavioural claims
about it.

Modelling conventions:
* Python dictionaries are association lists (`List (String × _)`); `d.get`
  with a default is `alookup · |>.getD`, `d[k]` on keys that are provably
  present is `pget`.
* Python numbers are exact rationals (`Rat`); the claims proved here are
  structural (sums, counts, filters, branch selection), not about binary
  floating-point rounding, and float overflow ("1e999") is not modelled.
* `float(str)` conversion is modelled by `pyFloatOfString`, which follows
  CPython's accepted string grammar (optional sign, `inf`/`infinity`/`nan`
  case-insensitively, or a decimal mantissa with optional exponent), with
  ASCII input and without digit-group underscores.
* Network interactions (`ccxt` fetches, order creation) are data: each
  exchange carries the outcome of its fetch calls (`Except`) and an oracle
  for order creation; Python `try/except` around such a call becomes a
  `match` on that outcome.
* Payload values reaching `process_signal` are modelled as strings (the
  values TradingView/webhook/email signals carry); non-string values would
  raise `AttributeError` inside the catch-all handler and are outside the
  modelled space.
-/

namespace TradeMoon

/-- A Python dictionary value as it occurs in the position dictionaries and
email payloads of this code base: a string, a number, or `None`. -/
inductive PVal where
  | str (s : String)
  | num (q : Rat)
  | pnone
deriving DecidableEq, Repr

/-- Association-list lookup with decidable string keys; models Python
`dict` lookup (first binding wins; the dictionaries built by this code have
pairwise-distinct keys). -/
def alookup {α : Type} (d : List (String × α)) (k : String) : Option α :=
  match d with
  | [] => none
  | (k', v) :: rest => if k' = k then some v else alookup rest k

/-- Python `d.get(k, default)`. -/
def dget (d : List (String × PVal)) (k : String) (default : PVal) : PVal :=
  (alookup d k).getD default

/-- Python `d[k]` on a key that is present in every dictionary this code
constructs (e.g. `pos["symbol"]`); absent keys — impossible for the
dictionaries built by `get_positions` — default to `None`. -/
def pget (d : List (String × PVal)) (k : String) : PVal :=
  (alookup d k).getD .pnone

/-- Python `d[k] = v`: overwrite in place if the key exists (keeping
insertion order), otherwise append. -/
def dinsert {α : Type} (d : List (String × α)) (k : String) (v : α) :
    List (String × α) :=
  if (alookup d k).isSome then
    d.map (fun kv => if kv.1 = k then (k, v) else kv)
  else d ++ [(k, v)]

/-- The numeric content of a dictionary value, with a default; used where
the source arithmetic only ever meets numeric values. -/
def PVal.toRatD : PVal → Rat → Rat
  | .num q, _ => q
  | _, d => d

/-- Python `str()` of a dictionary value as used in f-strings; only the
string case occurs at the call sites modelled here (`pos['symbol']` is
always a string), so the rendering of numbers is left trivial. -/
def PVal.toStr : PVal → String
  | .str s => s
  | .num _ => ""
  | .pnone => "None"

/-! ## CPython `float(str)` conversion -/

/-- The result of Python `float()`: a finite value, an infinity, or NaN. -/
inductive PyFloat where
  | finite (q : Rat)
  | inf
  | negInf
  | nan
deriving DecidableEq, Repr

/-- Whether a Python float is a finite number. -/
def PyFloat.isFinite : PyFloat → Bool
  | .finite _ => true
  | _ => false

/-- Python whitespace stripped by `str.strip()` and by `float()`. -/
def isPySpace (c : Char) : Bool :=
  c = ' ' ∨ c = '\t' ∨ c = '\n' ∨ c = '\r' ∨ c = '\x0b' ∨ c = '\x0c'

/-- Strip leading and trailing whitespace from a character list. -/
def stripChars (cs : List Char) : List Char :=
  ((cs.dropWhile isPySpace).reverse.dropWhile isPySpace).reverse

/-- Python `str.strip()` (ASCII whitespace). -/
def pyStrip (s : String) : String :=
  String.mk (stripChars s.toList)

/-- Python `str.lower()` (ASCII case folding; the fields this code lowers
are exchange names, sides and order types, which are ASCII). -/
def pyLower (s : String) : String :=
  String.mk (s.toList.map Char.toLower)

/-- ASCII decimal digit test. -/
def isDig (c : Char) : Bool := '0' ≤ c ∧ c ≤ '9'

/-- Numeric value of a digit string. -/
def digitsToNat (cs : List Char) : Nat :=
  cs.foldl (fun a c => 10 * a + (c.toNat - '0'.toNat)) 0

/-- Split an optional leading sign; `true` means negative. -/
def splitSign (cs : List Char) : Bool × List Char :=
  match cs with
  | '+' :: rest => (false, rest)
  | '-' :: rest => (true, rest)
  | _ => (false, cs)

/-- The rational value of a decimal literal with mantissa digits `m` and a
net power-of-ten exponent `n` (literal exponent minus the number of
fractional digits): `m × 10^n`. -/
def decimalValue (m : Nat) (n : Int) : Rat :=
  if 0 ≤ n then mkRat (m * 10 ^ n.toNat) 1 else mkRat m (10 ^ (-n).toNat)

/-- Parse an unsigned decimal literal `digits [. digits] [(e|E) [sign] digits]`
(at least one mantissa digit, nothing left over), as accepted by CPython
`float()` after sign handling. -/
def parseDecimal (cs : List Char) : Option Rat :=
  let intD := cs.takeWhile isDig
  let rest := cs.dropWhile isDig
  let fracD := match rest with
    | '.' :: r => r.takeWhile isDig
    | _ => []
  let rest2 := match rest with
    | '.' :: r => r.dropWhile isDig
    | _ => rest
  if intD.isEmpty ∧ fracD.isEmpty then none
  else
    let m := digitsToNat (intD ++ fracD)
    match rest2 with
    | [] => some (decimalValue m (-(fracD.length : Int)))
    | e :: r =>
      if e = 'e' ∨ e = 'E' then
        let (eneg, r2) := splitSign r
        let expD := r2.takeWhile isDig
        let r3 := r2.dropWhile isDig
        if expD.isEmpty ∨ ¬ r3.isEmpty then none
        else
          let ex : Int := if eneg then -(digitsToNat expD : Int) else (digitsToNat expD : Int)
          some (decimalValue m (ex - (fracD.length : Int)))
      else none

/-- CPython `float(s)` for string arguments: strip whitespace, optional
sign, then `inf`/`infinity`/`nan` (case-insensitive) or a decimal literal.
`none` models `ValueError`. Rationals being exact, overflow to `inf` of
huge finite literals is not modelled. -/
def pyFloatOfString (s : String) : Option PyFloat :=
  let t := (stripChars s.toList).map Char.toLower
  let (neg, rest) := splitSign t
  let restStr := String.mk rest
  if restStr = "inf" ∨ restStr = "infinity" then
    some (if neg then .negInf else .inf)
  else if restStr = "nan" then some .nan
  else (parseDecimal rest).map (fun q => .finite (if neg then -q else q))

/-! ## `signal_handler.process_signal`

The raw signal payload is a JSON object whose values are strings
(`List (String × String)`); the configured exchanges of the
`signal_handler` module are their names, and order creation is an oracle
mapping the attempted call to the exchange's reply (`Except` models the
`try`/`except` around `create_order`). -/

/-- One `exchange.create_order(...)` invocation as issued by
`process_signal` (`price = none` for the four-argument market form). -/
structure OrderCall where
  exchange_name : String
  symbol : String
  order_type : String
  side : String
  quantity : PyFloat
  price : Option PyFloat
deriving DecidableEq, Repr

/-- The distinct exit paths of `process_signal`; the Python function
returns `None` on every path and the outcomes are distinguished by the log
line written just before returning. -/
inductive SignalOutcome where
  | missingField (f : String)
  | invalidQuantity
  | invalidSide
  | missingPrice
  | invalidPrice
  | exchangeUnavailable
  | unsupportedOrderType
  | orderPlaced
  | orderFailed (msg : String)
deriving DecidableEq, Repr

/-- The `PRICE` sub-validation of `process_signal`: for limit orders the
key must be present and convert via `float()`. -/
def validatePrice (data : List (String × String)) (order_type : String) :
    Except SignalOutcome (Option PyFloat) :=
  if order_type = "limit" then
    match alookup data "PRICE" with
    | none => .error .missingPrice
    | some s =>
      match pyFloatOfString s with
      | none => .error .invalidPrice
      | some p => .ok (some p)
  else .ok none

/-- `signal_handler.process_signal(data)`: required-field check, case
normalisation, `QUANTITY` conversion, `SIDE` check, limit-`PRICE` check,
exchange resolution, then dispatch on the order type. Returns the exit
path taken and the list of `create_order` calls issued. -/
def process_signal (oracle : OrderCall → Except String Unit)
    (exchange_names : List String) (data : List (String × String)) :
    SignalOutcome × List OrderCall :=
  match ["EXCHANGE", "SYMBOL", "SIDE", "ORDER_TYPE", "QUANTITY"].find?
      (fun f => (alookup data f).isNone) with
  | some f => (.missingField f, [])
  | none =>
    let exchange_name := pyLower ((alookup data "EXCHANGE").getD "")
    let symbol := (alookup data "SYMBOL").getD ""
    let side := pyLower ((alookup data "SIDE").getD "")
    let order_type := pyLower ((alookup data "ORDER_TYPE").getD "")
    match pyFloatOfString ((alookup data "QUANTITY").getD "") with
    | none => (.invalidQuantity, [])
    | some quantity =>
      if side ≠ "buy" ∧ side ≠ "sell" then (.invalidSide, [])
      else
        match validatePrice data order_type with
        | .error e => (e, [])
        | .ok price =>
          if exchange_name ∉ exchange_names then (.exchangeUnavailable, [])
          else if order_type = "limit" then
            let call : OrderCall := ⟨exchange_name, symbol, "limit", side, quantity, price⟩
            match oracle call with
            | .ok _ => (.orderPlaced, [call])
            | .error m => (.orderFailed m, [call])
          else if order_type = "market" then
            let call : OrderCall := ⟨exchange_name, symbol, "market", side, quantity, none⟩
            match oracle call with
            | .ok _ => (.orderPlaced, [call])
            | .error m => (.orderFailed m, [call])
          else (.unsupportedOrderType, [])

/-! ## `webhook_receiver.trade_signal` -/

/-- An HTTP reply: status code plus an abbreviation of the JSON body
(`"ok"` for `\x7b"status": "ok"\x7d`). -/
structure HttpReply where
  code : Nat
  body : String
deriving DecidableEq, Repr

/-- `webhook_receiver.trade_signal`: the `/webhook` POST handler. The
request body is `none` when no JSON object was supplied (the 400 path)
and `some data` otherwise. Besides the reply, the outcome of
`process_signal` and the exchange calls it made are returned for
observability; the Python handler ignores both when building its reply. -/
def trade_signal (webhook_pin : String) (oracle : OrderCall → Except String Unit)
    (exchange_names : List String) (body : Option (List (String × String))) :
    HttpReply × Option SignalOutcome × List OrderCall :=
  match body with
  | none => (⟨400, "No JSON data"⟩, none, [])
  | some data =>
    if webhook_pin ≠ "" ∧ (alookup data "PIN").getD "" ≠ webhook_pin then
      (⟨403, "Invalid pin"⟩, none, [])
    else
      let r := process_signal oracle exchange_names data
      (⟨200, "ok"⟩, some r.1, r.2)

/-! ## `email_reader` message handling

The mailbox payloads are JSON objects whose values may be strings or
numbers (`List (String × PVal)`). `html.unescape` and `json.loads` are
supplied as part of the environment: the first is an arbitrary text
transformation, the second returns `some payload` when the cleaned text
parses as a JSON object and `none` on `json.JSONDecodeError`. -/

structure MailEnv where
  webhook_pin : String
  unescape : String → String
  jsonLoads : String → Option (List (String × PVal))

/-- Zero-width characters stripped by the reader
(`U+200B`–`U+200D`, `U+FEFF`). -/
def isZeroWidth (c : Char) : Bool :=
  ('\u200B' ≤ c ∧ c ≤ '\u200D') ∨ c = '\uFEFF'

/-- `email_reader.parse_email_subject`: accept only subjects starting (after
stripping) with `"Alert:"`; take the remainder — for a subject that starts
with the marker, `subject.split("Alert:", 1)[1]` is everything after those
six characters — strip it, undo HTML entities, drop zero-width characters
and newlines, and parse it as JSON. -/
def parse_email_subject (env : MailEnv) (subject : String) :
    Option (List (String × PVal)) :=
  let cs := stripChars subject.toList
  if cs.take 6 = "Alert:".toList then
    let json_part := env.unescape (String.mk (stripChars (cs.drop 6)))
    let json_part := json_part.toList.filter (fun c => ¬ isZeroWidth c)
    let json_part := String.mk (json_part.filter (fun c => c ≠ '\n' ∧ c ≠ '\r'))
    env.jsonLoads json_part
  else none

/-- What `check_inbox` did with one (transport-decoded) message: the
payload it handed to `process_signal`, if any, and whether it marked the
message read (`mail.store(e_id, "+FLAGS", "\\Seen")`). -/
structure MsgOutcome where
  processed : Option (List (String × PVal))
  markedRead : Bool
deriving DecidableEq, Repr

/-- The per-message body of the loop in `email_reader.check_inbox`, after
the transport decoding of the subject: extract the signal; if the result
is truthy (a non-empty JSON object), check the configured PIN against the
payload's `PIN` field and on mismatch `continue` to the next message;
otherwise process the signal and mark the message read. Non-signal
messages are left unread. -/
def handle_message (env : MailEnv) (subject : String) : MsgOutcome :=
  match parse_email_subject env subject with
  | some alert_data =>
    if alert_data.isEmpty then ⟨none, false⟩
    else if env.webhook_pin ≠ "" ∧ dget alert_data "PIN" (.str "") ≠ .str env.webhook_pin then
      ⟨none, false⟩
    else ⟨some alert_data, true⟩
  | none => ⟨none, false⟩

/-! ## `bot_logic`: positions, closing, portfolio summary

An exchange handle is its name plus the outcome of each network
interaction: the `fetch_positions()` reply, the `fetch_balance()` reply,
and an oracle for `create_market_order` (`Except` models the `try/except`
around each call). A raw `ccxt` position is a record with optional fields;
an absent field models a missing dictionary key, for which the source's
`pos.get(key, default)` substitutes its default. -/

/-- A raw position dictionary as returned by `ccxt`'s `fetch_positions`. -/
structure RawPosition where
  symbol : Option String := none
  side : Option String := none
  contracts : Option Rat := none
  notional : Option Rat := none
  entryPrice : Option Rat := none
  liquidationPrice : Option Rat := none
  marginRatio : Option Rat := none
  leverage : Option Rat := none
  unrealizedPnl : Option Rat := none
deriving DecidableEq, Repr

/-- The `USDT` part of a `fetch_balance()` reply:
`balance.get('USDT', \x7b\x7d).get('total', 0.0)` yields `usdtTotal` when
present and the default `0.0` otherwise. -/
structure Balance where
  usdtTotal : Option Rat
deriving DecidableEq, Repr

/-- One configured exchange of `bot_logic`, with the outcomes of its
network interactions. -/
structure ExchangeData where
  name : String
  fetchPositions : Except String (List RawPosition)
  fetchBalance : Except String Balance
  createMarketOrder : String → String → PVal → Except String Unit

/-- An optional numeric field as stored in the standardized position
dictionary (`None` when absent). -/
def optNum : Option Rat → PVal
  | some q => .num q
  | none => .pnone

/-- The standardized position dictionary appended by `get_positions` for
one active raw position. -/
def normalize_position (exchange_name : String) (pos : RawPosition) :
    List (String × PVal) :=
  [("symbol", .str (pos.symbol.getD "N/A")),
   ("side", .str (pos.side.getD "N/A")),
   ("contracts", .num (pos.contracts.getD 0)),
   ("notional", .num (pos.notional.getD 0)),
   ("entry_price", .num (pos.entryPrice.getD 0)),
   ("liquidation_price", optNum pos.liquidationPrice),
   ("margin_ratio", optNum pos.marginRatio),
   ("leverage", optNum pos.leverage),
   ("unrealized_pnl", .num (pos.unrealizedPnl.getD 0)),
   ("exchange", .str exchange_name)]

/-- `bot_logic.get_positions()`: per exchange, fetch all positions, keep
the active ones (`pos.get('contracts', 0) > 0`) and standardize them; an
exchange whose fetch raises keeps the empty list installed before the
`try` block. Returns the `positions_data` dictionary. -/
def get_positions (exs : List ExchangeData) :
    List (String × List (List (String × PVal))) :=
  exs.map (fun ex =>
    (ex.name,
      match ex.fetchPositions with
      | .error _ => []
      | .ok raws =>
        (raws.filter (fun p => 0 < p.contracts.getD 0)).map
          (normalize_position ex.name)))

/-- A `create_market_order(symbol, side, amount)` call issued to an
exchange. -/
structure MarketOrderCall where
  exchange_name : String
  symbol : String
  side : String
  amount : PVal
deriving DecidableEq, Repr

/-- The status dictionary returned by the trading operations of
`bot_logic` (`message = none` for the success dictionary, which carries
the order object instead). -/
structure OpResult where
  status : String
  message : Option String
deriving DecidableEq, Repr

/-- `bot_logic.close_position(exchange_name, symbol)`: check the exchange
is configured, look the symbol up in the freshly fetched positions of that
exchange, and close the first match with an offsetting market order sized
to its contract count (`sell` for `buy`/`long` positions, `buy`
otherwise). Returns the status dictionary and the `create_market_order`
calls issued. -/
def close_position (exs : List ExchangeData) (exchange_name symbol : String) :
    OpResult × List MarketOrderCall :=
  match exs.find? (fun ex => ex.name = exchange_name) with
  | none =>
    (⟨"error", some ("Биржа " ++ exchange_name ++ " не найдена.")⟩, [])
  | some ex =>
    let positions := (alookup (get_positions exs) exchange_name).getD []
    match positions.find? (fun pos => pget pos "symbol" = .str symbol) with
    | some pos =>
      let side :=
        if pget pos "side" = .str "buy" ∨ pget pos "side" = .str "long"
        then "sell" else "buy"
      let call : MarketOrderCall := ⟨exchange_name, symbol, side, pget pos "contracts"⟩
      match ex.createMarketOrder symbol side (pget pos "contracts") with
      | .ok _ => (⟨"success", none⟩, [call])
      | .error e => (⟨"error", some e⟩, [call])
    | none => (⟨"error", some "Открытая позиция не найдена."⟩, [])

/-- The body of the inner loop of `close_all_positions`: close one
discovered position and record the result under the key
`f"\x7bexchange_name\x7d_\x7bpos['symbol']\x7d"` in the `results` dictionary. -/
def close_all_step (exs : List ExchangeData) (exchange_name : String)
    (acc : List (String × OpResult) × List MarketOrderCall)
    (pos : List (String × PVal)) :
    List (String × OpResult) × List MarketOrderCall :=
  let sym := (pget pos "symbol").toStr
  let r := close_position exs exchange_name sym
  (dinsert acc.1 (exchange_name ++ "_" ++ sym) r.1, acc.2 ++ r.2)

/-- `bot_logic.close_all_positions()`: fetch a position snapshot, then for
every discovered position call `close_position` and record its result in
the `results` dictionary. Returns the results dictionary and all order
calls issued. -/
def close_all_positions (exs : List ExchangeData) :
    List (String × OpResult) × List MarketOrderCall :=
  (get_positions exs).foldl
    (fun acc entry => entry.2.foldl (close_all_step exs entry.1) acc)
    ([], [])

/-- The `results` keys of `close_all_positions`, one per discovered
position, in discovery order. -/
def closeAllKeys (exs : List ExchangeData) : List String :=
  (get_positions exs).flatMap
    (fun entry => entry.2.map (fun pos => entry.1 ++ "_" ++ (pget pos "symbol").toStr))

/-- How many open positions the snapshot of `close_all_positions`
discovers across all exchanges. -/
def numDiscovered (exs : List ExchangeData) : Nat :=
  ((get_positions exs).map (fun entry => entry.2.length)).sum

/-- The summary statistics dictionary of `calculate_summary_stats`. -/
structure SummaryStats where
  portfolio_value : Rat
  total_pnl : Rat
  margin_used : Rat
deriving DecidableEq, Repr

/-- The per-position body of the accumulation loop in
`calculate_summary_stats`: add the position's `unrealized_pnl` to the
total PnL, and — when `pos.get('marginRatio')` is not `None` — add
`pos.get('notional', 0.0) * margin_ratio` to the margin used. Note the
source reads the key `'marginRatio'` here, while `get_positions` stores
the margin ratio under `'margin_ratio'`. -/
def position_stats_step (stats : SummaryStats) (pos : List (String × PVal)) :
    SummaryStats :=
  let stats :=
    { stats with total_pnl := stats.total_pnl + (dget pos "unrealized_pnl" (.num 0)).toRatD 0 }
  let margin_ratio := dget pos "marginRatio" .pnone
  if margin_ratio ≠ .pnone then
    { stats with margin_used :=
        stats.margin_used + (dget pos "notional" (.num 0)).toRatD 0 * margin_ratio.toRatD 0 }
  else stats

/-- One exchange's `try` block inside `calculate_summary_stats`: fetch the
balance (a raising fetch leaves the running totals untouched), add the
USDT total to the portfolio value, then fold the accumulation loop over
this exchange's entry of the position snapshot. -/
def exchange_contribution (all_positions : List (String × List (List (String × PVal))))
    (stats : SummaryStats) (ex : ExchangeData) : SummaryStats :=
  match ex.fetchBalance with
  | .error _ => stats
  | .ok bal =>
    let positions := (alookup all_positions ex.name).getD []
    let stats :=
      { stats with portfolio_value := stats.portfolio_value + bal.usdtTotal.getD 0 }
    positions.foldl position_stats_step stats

/-- `bot_logic.calculate_summary_stats()`: zero totals when no exchange is
configured; otherwise take one position snapshot and accumulate every
exchange's contribution. -/
def calculate_summary_stats (exs : List ExchangeData) : SummaryStats :=
  if exs.isEmpty then ⟨0, 0, 0⟩
  else exs.foldl (exchange_contribution (get_positions exs)) ⟨0, 0, 0⟩

/-! ## Basic lemmas about the embedding -/

theorem alookup_eq_none_iff {α : Type} (d : List (String × α)) (k : String) :
    alookup d k = none ↔ k ∉ d.map Prod.fst := by
  induction d with
  | nil => simp [alookup]
  | cons p rest ih =>
    obtain ⟨k', v⟩ := p
    simp only [alookup, List.map_cons, List.mem_cons]
    by_cases h : k' = k
    · simp [h]
    · rw [if_neg h, ih]
      constructor
      · intro hk hc
        rcases hc with hc | hc
        · exact h hc.symm
        · exact hk hc
      · intro hk
        exact fun hc => hk (Or.inr hc)

theorem mem_of_alookup_eq_some {α : Type} (d : List (String × α)) (k : String)
    (v : α) (h : alookup d k = some v) : (k, v) ∈ d := by
  induction d with
  | nil => simp [alookup] at h
  | cons p rest ih =>
    obtain ⟨k', v'⟩ := p
    simp only [alookup] at h
    by_cases hk : k' = k
    · rw [if_pos hk] at h
      subst hk
      injection h with h
      subst h
      exact List.mem_cons_self _ _
    · rw [if_neg hk] at h
      exact List.mem_cons_of_mem _ (ih h)

theorem alookup_of_mem_nodup {α : Type} (d : List (String × α)) (k : String)
    (v : α) (hd : (d.map Prod.fst).Nodup) (h : (k, v) ∈ d) :
    alookup d k = some v := by
  induction d with
  | nil => simp at h
  | cons p rest ih =>
    obtain ⟨k', v'⟩ := p
    simp only [List.map_cons, List.nodup_cons] at hd
    rcases List.mem_cons.mp h with h | h
    · injection h with h1 h2
      subst h1; subst h2
      simp [alookup]
    · have hk : k' ≠ k := by
        intro hk
        subst hk
        exact hd.1 (List.mem_map.mpr ⟨(k', v), h, rfl⟩)
      simp only [alookup, if_neg hk]
      exact ih hd.2 h

theorem dinsert_fresh {α : Type} (d : List (String × α)) (k : String) (v : α)
    (h : alookup d k = none) : dinsert d k v = d ++ [(k, v)] := by
  simp [dinsert, h]

/-! Key lookups in the standardized position dictionary. -/

theorem pget_normalized_symbol (n : String) (p : RawPosition) :
    pget (normalize_position n p) "symbol" = .str (p.symbol.getD "N/A") := rfl

theorem pget_normalized_side (n : String) (p : RawPosition) :
    pget (normalize_position n p) "side" = .str (p.side.getD "N/A") := rfl

theorem pget_normalized_contracts (n : String) (p : RawPosition) :
    pget (normalize_position n p) "contracts" = .num (p.contracts.getD 0) := rfl

theorem alookup_normalized_marginRatio (n : String) (p : RawPosition) :
    alookup (normalize_position n p) "marginRatio" = none := rfl

theorem get_positions_map_fst (exs : List ExchangeData) :
    (get_positions exs).map Prod.fst = exs.map (fun ex => ex.name) := by
  rw [get_positions, List.map_map]
  rfl

theorem mem_entry_normalized (exs : List ExchangeData)
    (entry : String × List (List (String × PVal))) (h : entry ∈ get_positions exs)
    (pos : List (String × PVal)) (hp : pos ∈ entry.2) :
    ∃ p : RawPosition, pos = normalize_position entry.1 p ∧ 0 < p.contracts.getD 0 := by
  obtain ⟨ex, hex, hfe⟩ := List.mem_map.mp h
  rw [← hfe] at hp ⊢
  cases hfp : ex.fetchPositions with
  | error e =>
    rw [hfp] at hp
    simp at hp
  | ok raws =>
    rw [hfp] at hp
    simp only at hp
    obtain ⟨p, hpf, hnorm⟩ := List.mem_map.mp hp
    have hfilter := List.mem_filter.mp hpf
    refine ⟨p, hnorm.symm, ?_⟩
    have := hfilter.2
    simpa using this

/-! ## The margin computation of `calculate_summary_stats` -/

theorem position_stats_step_margin (st : SummaryStats) (n : String) (p : RawPosition) :
    (position_stats_step st (normalize_position n p)).margin_used = st.margin_used := rfl

theorem foldl_position_stats_margin (l : List (List (String × PVal)))
    (hl : ∀ pos ∈ l, ∀ st : SummaryStats,
      (position_stats_step st pos).margin_used = st.margin_used) :
    ∀ st : SummaryStats, (l.foldl position_stats_step st).margin_used = st.margin_used := by
  induction l with
  | nil => intro st; rfl
  | cons pos rest ih =>
    intro st
    rw [List.foldl_cons, ih (fun q hq => hl q (List.mem_cons_of_mem _ hq)),
      hl pos (List.mem_cons_self _ _)]

theorem exchange_contribution_margin (exs : List ExchangeData) (st : SummaryStats)
    (ex : ExchangeData) :
    (exchange_contribution (get_positions exs) st ex).margin_used = st.margin_used := by
  unfold exchange_contribution
  cases hb : ex.fetchBalance with
  | error e => rfl
  | ok bal =>
    simp only
    cases ha : alookup (get_positions exs) ex.name with
    | none => simp [ha]
    | some plist =>
      simp only [ha, Option.getD_some]
      have hmem : (ex.name, plist) ∈ get_positions exs :=
        mem_of_alookup_eq_some _ _ _ ha
      rw [foldl_position_stats_margin]
      intro pos hp st'
      obtain ⟨p, hpos, _⟩ := mem_entry_normalized exs (ex.name, plist) hmem pos hp
      rw [hpos]
      exact position_stats_step_margin st' ex.name p

theorem summary_margin_zero (exs : List ExchangeData) :
    (calculate_summary_stats exs).margin_used = 0 := by
  unfold calculate_summary_stats
  split
  · rfl
  · have h : ∀ (l : List ExchangeData) (st : SummaryStats),
        (l.foldl (exchange_contribution (get_positions exs)) st).margin_used =
          st.margin_used := by
      intro l
      induction l with
      | nil => intro st; rfl
      | cons e rest ih =>
        intro st
        rw [List.foldl_cons, ih, exchange_contribution_margin]
    rw [h]

/-- C1: the claim says `margin_used` accumulates `notionalValue × marginRatio`
for every open position whose margin ratio is present. The code violates
this: `calculate_summary_stats` reads `pos.get('marginRatio')` from the
standardized dictionaries, but `get_positions` stores the margin ratio
under the key `'margin_ratio'`, so the lookup always yields `None` and
`margin_used` is identically `0`. At a snapshot holding one position with
margin ratio `0.5` and notional `100` (claimed contribution `50`), with a
USDT balance of `10` and unrealized PnL `5`, the summary is
`⟨10, 5, 0⟩`: the portfolio-value and PnL sums behave as claimed while the
margin contribution is dropped. -/
theorem summary_margin_ratio_key_mismatch :
    (∀ exs : List ExchangeData, (calculate_summary_stats exs).margin_used = 0) ∧
    calculate_summary_stats
      [⟨"binance",
        .ok [{ symbol := some "BTC/USDT", side := some "long", contracts := some 1,
               notional := some 100, marginRatio := some (mkRat 1 2),
               unrealizedPnl := some 5 }],
        .ok ⟨some 10⟩, fun _ _ _ => .ok ()⟩] = ⟨10, 5, 0⟩ := by
  constructor
  · exact summary_margin_zero
  · simp [calculate_summary_stats, exchange_contribution, position_stats_step,
      get_positions, normalize_position, alookup, dget, PVal.toRatD, optNum]

/-! ## Claim C2: mailbox PIN mismatch -/

/-- C2 (amended): for every mailbox message whose subject carries the
"Alert:" marker and parses to a (truthy) JSON payload, when a non-empty
PIN is configured and the payload PIN does not match, the PIN check —
performed only after the JSON parse succeeded — rejects the signal: it is
not processed, and the message is left UNREAD (the loop `continue`s before
the mark-read store), not marked read as the claim states. -/
theorem email_pin_mismatch_leaves_unread (env : MailEnv) (subject : String)
    (payload : List (String × PVal))
    (hparse : parse_email_subject env subject = some payload)
    (hne : payload.isEmpty = false)
    (hpin : env.webhook_pin ≠ "")
    (hmismatch : dget payload "PIN" (.str "") ≠ .str env.webhook_pin) :
    handle_message env subject = ⟨none, false⟩ := by
  unfold handle_message
  rw [hparse]
  simp [hne, hpin, hmismatch]

/-- C2 witness: a concrete message with a parsed payload, a configured PIN
"1234" and payload PIN "0000" is neither processed nor marked read. -/
theorem email_pin_mismatch_leaves_unread_witness :
    parse_email_subject
        ⟨"1234", id, fun s => if s = "sig" then some [("PIN", PVal.str "0000")] else none⟩
        "Alert: sig" = some [("PIN", PVal.str "0000")] ∧
    handle_message
        ⟨"1234", id, fun s => if s = "sig" then some [("PIN", PVal.str "0000")] else none⟩
        "Alert: sig" = ⟨none, false⟩ :=
  ⟨by decide,
   email_pin_mismatch_leaves_unread
     ⟨"1234", id, fun s => if s = "sig" then some [("PIN", PVal.str "0000")] else none⟩
     "Alert: sig" [("PIN", PVal.str "0000")]
     (by decide) (by decide) (by decide) (by decide)⟩

/-- C2 counterexample to the claim as stated: at this concrete message the
marker is present, the payload parses, the configured PIN "1234" is
non-empty and differs from the payload PIN "0000" — yet the message is NOT
marked read (`markedRead = false`), contradicting the claim that it is
"marked read anyway". -/
theorem email_pin_mismatch_not_marked_read :
    (("1234" : String) ≠ "") ∧
    parse_email_subject
        ⟨"1234", id, fun s => if s = "mismatch" then some [("PIN", PVal.str "0000")] else none⟩
        "Alert: mismatch" = some [("PIN", PVal.str "0000")] ∧
    dget [("PIN", PVal.str "0000")] "PIN" (.str "") ≠ .str "1234" ∧
    (handle_message
        ⟨"1234", id, fun s => if s = "mismatch" then some [("PIN", PVal.str "0000")] else none⟩
        "Alert: mismatch").markedRead = false ∧
    (handle_message
        ⟨"1234", id, fun s => if s = "mismatch" then some [("PIN", PVal.str "0000")] else none⟩
        "Alert: mismatch").processed = none := by
  decide

/-! ## Claim C3: QUANTITY validation -/

theorem validatePrice_error_cases (data : List (String × String)) (t : String)
    (e : SignalOutcome) (h : validatePrice data t = .error e) :
    e = .missingPrice ∨ e = .invalidPrice := by
  unfold validatePrice at h
  by_cases ht : t = "limit"
  · rw [if_pos ht] at h
    cases hl : alookup data "PRICE" with
    | none =>
      rw [hl] at h
      injection h with h
      exact Or.inl h.symm
    | some s =>
      rw [hl] at h
      simp only at h
      cases hf : pyFloatOfString s with
      | none =>
        rw [hf] at h
        injection h with h
        exact Or.inr h.symm
      | some p =>
        rw [hf] at h
        cases h
  · rw [if_neg ht] at h
    cases h

theorem validatePrice_not_limit (data : List (String × String)) (t : String)
    (h : t ≠ "limit") : validatePrice data t = .ok none := by
  simp [validatePrice, h]

theorem process_signal_not_invalidQuantity (oracle : OrderCall → Except String Unit)
    (exchange_names : List String) (data : List (String × String)) (q : PyFloat)
    (hfind : (["EXCHANGE", "SYMBOL", "SIDE", "ORDER_TYPE", "QUANTITY"].find?
      (fun f => (alookup data f).isNone)) = none)
    (hq : pyFloatOfString ((alookup data "QUANTITY").getD "") = some q) :
    (process_signal oracle exchange_names data).1 ≠ .invalidQuantity := by
  intro h
  unfold process_signal at h
  rw [hfind] at h
  simp only at h
  rw [hq] at h
  simp only at h
  split at h
  · simp at h
  · split at h
    · rename_i e heq
      rcases validatePrice_error_cases _ _ _ heq with rfl | rfl <;> simp at h
    · split at h
      · simp at h
      · split at h
        · split at h <;> simp at h
        · split at h
          · split at h <;> simp at h
          · simp at h

/-- C3 (amended): for every payload containing all required keys, the
QUANTITY validation of `process_signal` fails exactly when `float()`
cannot convert the QUANTITY string at all — success requires only "parses
as a number", NOT "parses as a finite number": `inf`, `-inf` and `nan`
convert and are accepted. When conversion fails the outcome is the
invalid-quantity rejection and no exchange call is issued. -/
theorem quantity_rejected_iff_unparseable (oracle : OrderCall → Except String Unit)
    (exchange_names : List String) (data : List (String × String))
    (hreq : ∀ f ∈ ["EXCHANGE", "SYMBOL", "SIDE", "ORDER_TYPE", "QUANTITY"],
      (alookup data f).isSome) :
    ((process_signal oracle exchange_names data).1 = .invalidQuantity ↔
      pyFloatOfString ((alookup data "QUANTITY").getD "") = none) ∧
    (pyFloatOfString ((alookup data "QUANTITY").getD "") = none →
      (process_signal oracle exchange_names data).2 = []) := by
  have hfind : (["EXCHANGE", "SYMBOL", "SIDE", "ORDER_TYPE", "QUANTITY"].find?
      (fun f => (alookup data f).isNone)) = none := by
    rw [List.find?_eq_none]
    intro f hf
    have h := hreq f hf
    cases halook : alookup data f with
    | none => rw [halook] at h; simp at h
    | some v => simp [halook]
  cases hq : pyFloatOfString ((alookup data "QUANTITY").getD "") with
  | none =>
    have : process_signal oracle exchange_names data = (.invalidQuantity, []) := by
      unfold process_signal
      rw [hfind]
      simp only
      rw [hq]
    rw [this]
    simp
  | some q =>
    have hne := process_signal_not_invalidQuantity oracle exchange_names data q hfind hq
    refine ⟨⟨fun hc => absurd hc hne, fun hc => by simp at hc⟩, fun hc => by simp at hc⟩

/-- C3 witness: a payload with QUANTITY "abc" (not a number) is rejected
as invalid quantity with no exchange call. -/
theorem quantity_rejected_iff_unparseable_witness :
    (["EXCHANGE", "SYMBOL", "SIDE", "ORDER_TYPE", "QUANTITY"].all
      (fun f => (alookup [("EXCHANGE", "binance"), ("SYMBOL", "BTC/USDT"), ("SIDE", "buy"),
        ("ORDER_TYPE", "market"), ("QUANTITY", "abc")] f).isSome)) = true ∧
    (((process_signal (fun _ => .ok ()) ["binance"]
        [("EXCHANGE", "binance"), ("SYMBOL", "BTC/USDT"), ("SIDE", "buy"),
         ("ORDER_TYPE", "market"), ("QUANTITY", "abc")]).1 = .invalidQuantity ↔
      pyFloatOfString ((alookup [("EXCHANGE", "binance"), ("SYMBOL", "BTC/USDT"),
        ("SIDE", "buy"), ("ORDER_TYPE", "market"), ("QUANTITY", "abc")] "QUANTITY").getD "")
        = none) ∧
    (pyFloatOfString ((alookup [("EXCHANGE", "binance"), ("SYMBOL", "BTC/USDT"),
        ("SIDE", "buy"), ("ORDER_TYPE", "market"), ("QUANTITY", "abc")] "QUANTITY").getD "")
        = none →
      (process_signal (fun _ => .ok ()) ["binance"]
        [("EXCHANGE", "binance"), ("SYMBOL", "BTC/USDT"), ("SIDE", "buy"),
         ("ORDER_TYPE", "market"), ("QUANTITY", "abc")]).2 = [])) :=
  ⟨by decide, quantity_rejected_iff_unparseable _ _ _ (by decide)⟩

/-- C3 counterexample to the claim as stated: QUANTITY "inf" does not
parse as a FINITE number, yet validation succeeds — a market order with
quantity `inf` is submitted to the exchange instead of an invalid-quantity
rejection. -/
theorem quantity_inf_accepted :
    pyFloatOfString "inf" = some .inf ∧
    PyFloat.inf.isFinite = false ∧
    process_signal (fun _ => .ok ()) ["binance"]
      [("EXCHANGE", "binance"), ("SYMBOL", "BTC/USDT"), ("SIDE", "buy"),
       ("ORDER_TYPE", "market"), ("QUANTITY", "inf")] =
      (.orderPlaced, [⟨"binance", "BTC/USDT", "market", "buy", .inf, none⟩]) := by
  decide

/-! ## Claim C5: unsupported order type -/

/-- C5 (amended): for every payload with all required keys, a valid SIDE
and a QUANTITY that converts, if the case-normalized ORDER_TYPE is neither
"market" nor "limit" then no order-creation call is issued; the reported
failure is the unsupported-order-type error only when the EXCHANGE field
resolves to a configured exchange — an unconfigured EXCHANGE is reported
as exchange-unavailable first, because the code resolves the exchange
before dispatching on the order type. -/
theorem unsupported_order_type_no_call (oracle : OrderCall → Except String Unit)
    (exchange_names : List String) (data : List (String × String))
    (hreq : ∀ f ∈ ["EXCHANGE", "SYMBOL", "SIDE", "ORDER_TYPE", "QUANTITY"],
      (alookup data f).isSome)
    (hside : pyLower ((alookup data "SIDE").getD "") = "buy" ∨
      pyLower ((alookup data "SIDE").getD "") = "sell")
    (hqty : (pyFloatOfString ((alookup data "QUANTITY").getD "")).isSome)
    (htm : pyLower ((alookup data "ORDER_TYPE").getD "") ≠ "market")
    (htl : pyLower ((alookup data "ORDER_TYPE").getD "") ≠ "limit") :
    (process_signal oracle exchange_names data).2 = [] ∧
    (pyLower ((alookup data "EXCHANGE").getD "") ∈ exchange_names →
      (process_signal oracle exchange_names data).1 = .unsupportedOrderType) ∧
    (pyLower ((alookup data "EXCHANGE").getD "") ∉ exchange_names →
      (process_signal oracle exchange_names data).1 = .exchangeUnavailable) := by
  have hfind : (["EXCHANGE", "SYMBOL", "SIDE", "ORDER_TYPE", "QUANTITY"].find?
      (fun f => (alookup data f).isNone)) = none := by
    rw [List.find?_eq_none]
    intro f hf
    have h := hreq f hf
    cases halook : alookup data f with
    | none => rw [halook] at h; simp at h
    | some v => simp [halook]
  obtain ⟨q, hq⟩ := Option.isSome_iff_exists.mp hqty
  have hsidecond : ¬ (pyLower ((alookup data "SIDE").getD "") ≠ "buy" ∧
      pyLower ((alookup data "SIDE").getD "") ≠ "sell") := by
    rcases hside with h | h <;> simp [h]
  have hvp := validatePrice_not_limit data (pyLower ((alookup data "ORDER_TYPE").getD "")) htl
  by_cases hex : pyLower ((alookup data "EXCHANGE").getD "") ∈ exchange_names
  · have : process_signal oracle exchange_names data = (.unsupportedOrderType, []) := by
      unfold process_signal
      rw [hfind]
      simp only
      rw [hq]
      simp only [if_neg hsidecond]
      rw [hvp]
      simp only
      rw [if_neg (by simpa using hex), if_neg htl, if_neg htm]
    rw [this]
    exact ⟨rfl, fun _ => rfl, fun hc => absurd hex hc⟩
  · have : process_signal oracle exchange_names data = (.exchangeUnavailable, []) := by
      unfold process_signal
      rw [hfind]
      simp only
      rw [hq]
      simp only [if_neg hsidecond]
      rw [hvp]
      simp only
      rw [if_pos hex]
    rw [this]
    exact ⟨rfl, fun hc => absurd hc hex, fun _ => rfl⟩

/-- C5 witness: ORDER_TYPE "stop" on the configured exchange "binance" is
rejected as unsupported with no call issued. -/
theorem unsupported_order_type_no_call_witness :
    (["EXCHANGE", "SYMBOL", "SIDE", "ORDER_TYPE", "QUANTITY"].all
      (fun f => (alookup [("EXCHANGE", "binance"), ("SYMBOL", "BTC/USDT"), ("SIDE", "buy"),
        ("ORDER_TYPE", "stop"), ("QUANTITY", "2")] f).isSome)) = true ∧
    ((process_signal (fun _ => .ok ()) ["binance"]
        [("EXCHANGE", "binance"), ("SYMBOL", "BTC/USDT"), ("SIDE", "buy"),
         ("ORDER_TYPE", "stop"), ("QUANTITY", "2")]).2 = [] ∧
     (pyLower ((alookup [("EXCHANGE", "binance"), ("SYMBOL", "BTC/USDT"), ("SIDE", "buy"),
        ("ORDER_TYPE", "stop"), ("QUANTITY", "2")] "EXCHANGE").getD "") ∈ ["binance"] →
      (process_signal (fun _ => .ok ()) ["binance"]
        [("EXCHANGE", "binance"), ("SYMBOL", "BTC/USDT"), ("SIDE", "buy"),
         ("ORDER_TYPE", "stop"), ("QUANTITY", "2")]).1 = .unsupportedOrderType) ∧
     (pyLower ((alookup [("EXCHANGE", "binance"), ("SYMBOL", "BTC/USDT"), ("SIDE", "buy"),
        ("ORDER_TYPE", "stop"), ("QUANTITY", "2")] "EXCHANGE").getD "") ∉ ["binance"] →
      (process_signal (fun _ => .ok ()) ["binance"]
        [("EXCHANGE", "binance"), ("SYMBOL", "BTC/USDT"), ("SIDE", "buy"),
         ("ORDER_TYPE", "stop"), ("QUANTITY", "2")]).1 = .exchangeUnavailable)) :=
  ⟨by decide,
   unsupported_order_type_no_call _ _ _ (by decide) (by decide) (by decide)
     (by decide) (by decide)⟩

/-- C5 counterexample to the claim as stated ("for every value of the
EXCHANGE field"): an unknown order type "stop" together with the
unconfigured exchange "kraken" is reported as exchange-unavailable, not as
the unsupported-order-type error the claim requires; the claim's other
premises all hold at this payload. -/
theorem unsupported_order_type_unconfigured_exchange :
    (["EXCHANGE", "SYMBOL", "SIDE", "ORDER_TYPE", "QUANTITY"].all
      (fun f => (alookup [("EXCHANGE", "kraken"), ("SYMBOL", "BTC/USDT"), ("SIDE", "buy"),
        ("ORDER_TYPE", "stop"), ("QUANTITY", "2")] f).isSome)) = true ∧
    pyLower ((alookup [("EXCHANGE", "kraken"), ("SYMBOL", "BTC/USDT"), ("SIDE", "buy"),
      ("ORDER_TYPE", "stop"), ("QUANTITY", "2")] "SIDE").getD "") = "buy" ∧
    (pyFloatOfString ((alookup [("EXCHANGE", "kraken"), ("SYMBOL", "BTC/USDT"),
      ("SIDE", "buy"), ("ORDER_TYPE", "stop"), ("QUANTITY", "2")] "QUANTITY").getD
        "")).isSome = true ∧
    pyLower ((alookup [("EXCHANGE", "kraken"), ("SYMBOL", "BTC/USDT"), ("SIDE", "buy"),
      ("ORDER_TYPE", "stop"), ("QUANTITY", "2")] "ORDER_TYPE").getD "") = "stop" ∧
    process_signal (fun _ => .ok ()) ["binance"]
      [("EXCHANGE", "kraken"), ("SYMBOL", "BTC/USDT"), ("SIDE", "buy"),
       ("ORDER_TYPE", "stop"), ("QUANTITY", "2")] = (.exchangeUnavailable, []) ∧
    (SignalOutcome.exchangeUnavailable ≠ .unsupportedOrderType) := by
  decide

/-! ## Claim C7: closing a symbol with no open position -/

/-- C7: for a configured exchange whose fetched open positions contain no
position with the requested symbol, `close_position` returns the
no-open-position error dictionary and issues zero order calls. -/
theorem close_position_no_open_position (exs : List ExchangeData)
    (exchange_name symbol : String)
    (hconf : (exs.find? (fun ex => ex.name = exchange_name)).isSome)
    (hnone : ((alookup (get_positions exs) exchange_name).getD []).find?
      (fun pos => pget pos "symbol" = .str symbol) = none) :
    close_position exs exchange_name symbol =
      (⟨"error", some "Открытая позиция не найдена."⟩, []) := by
  obtain ⟨ex, hex⟩ := Option.isSome_iff_exists.mp hconf
  simp [close_position, hex, hnone]

/-- C7 witness: closing "BTC/USDT" on a configured exchange holding only
an "ETH/USDT" position yields the no-open-position error and no calls. -/
theorem close_position_no_open_position_witness :
    ((([⟨"binance",
        .ok [{ symbol := some "ETH/USDT", side := some "long", contracts := some 3 }],
        .ok ⟨none⟩, fun _ _ _ => .ok ()⟩] : List ExchangeData).find?
          (fun ex => ex.name = "binance")).isSome = true) ∧
    (((alookup (get_positions [⟨"binance",
        .ok [{ symbol := some "ETH/USDT", side := some "long", contracts := some 3 }],
        .ok ⟨none⟩, fun _ _ _ => .ok ()⟩]) "binance").getD []).find?
          (fun pos => pget pos "symbol" = .str "BTC/USDT") = none) ∧
    close_position [⟨"binance",
        .ok [{ symbol := some "ETH/USDT", side := some "long", contracts := some 3 }],
        .ok ⟨none⟩, fun _ _ _ => .ok ()⟩] "binance" "BTC/USDT" =
      (⟨"error", some "Открытая позиция не найдена."⟩, []) :=
  ⟨by decide, by decide,
   close_position_no_open_position _ "binance" "BTC/USDT" (by decide) (by decide)⟩

/-! ## Claim C6: closing an existing position -/

/-- C6: when the fetched positions of the requested exchange contain a
position matching the symbol, `close_position` issues exactly one market
order sized to that position's full contract count, with side "sell" for a
long/buy position and side "buy" for a short/sell position. -/
theorem close_position_offsetting_order (exs : List ExchangeData)
    (exchange_name symbol : String) (pos : List (String × PVal))
    (hfind : ((alookup (get_positions exs) exchange_name).getD []).find?
      (fun p => pget p "symbol" = .str symbol) = some pos) :
    (close_position exs exchange_name symbol).2.length = 1 ∧
    ((pget pos "side" = .str "buy" ∨ pget pos "side" = .str "long") →
      (close_position exs exchange_name symbol).2 =
        [⟨exchange_name, symbol, "sell", pget pos "contracts"⟩]) ∧
    ((pget pos "side" = .str "sell" ∨ pget pos "side" = .str "short") →
      (close_position exs exchange_name symbol).2 =
        [⟨exchange_name, symbol, "buy", pget pos "contracts"⟩]) := by
  have hlook : ∃ plist, alookup (get_positions exs) exchange_name = some plist := by
    cases ha : alookup (get_positions exs) exchange_name with
    | none => rw [ha] at hfind; simp at hfind
    | some plist => exact ⟨plist, rfl⟩
  obtain ⟨plist, hpl⟩ := hlook
  have hconf : (exs.find? (fun ex => ex.name = exchange_name)).isSome := by
    rw [List.find?_isSome]
    have hmem := mem_of_alookup_eq_some _ _ _ hpl
    have hname : exchange_name ∈ exs.map (fun ex => ex.name) := by
      rw [← get_positions_map_fst]
      exact List.mem_map.mpr ⟨(exchange_name, plist), hmem, rfl⟩
    obtain ⟨ex, hex, hn⟩ := List.mem_map.mp hname
    exact ⟨ex, hex, by simp [hn]⟩
  obtain ⟨ex, hex⟩ := Option.isSome_iff_exists.mp hconf
  by_cases hs : pget pos "side" = .str "buy" ∨ pget pos "side" = .str "long"
  · have hcp : (close_position exs exchange_name symbol).2 =
        [⟨exchange_name, symbol, "sell", pget pos "contracts"⟩] := by
      cases ho : ex.createMarketOrder symbol "sell" (pget pos "contracts") with
      | ok u => simp [close_position, hex, hfind, if_pos hs, ho]
      | error e => simp [close_position, hex, hfind, if_pos hs, ho]
    refine ⟨by rw [hcp]; rfl, fun _ => hcp, fun hs' => ?_⟩
    exfalso
    rcases hs with h1 | h1 <;> rcases hs' with h2 | h2 <;>
      · rw [h1] at h2
        simp at h2
  · have hcp : (close_position exs exchange_name symbol).2 =
        [⟨exchange_name, symbol, "buy", pget pos "contracts"⟩] := by
      cases ho : ex.createMarketOrder symbol "buy" (pget pos "contracts") with
      | ok u => simp [close_position, hex, hfind, if_neg hs, ho]
      | error e => simp [close_position, hex, hfind, if_neg hs, ho]
    exact ⟨by rw [hcp]; rfl, fun hs' => absurd hs' hs, fun _ => hcp⟩

/-- C6 witness: a long BTC/USDT position of 3 contracts is closed by
exactly one sell market order for 3 contracts. -/
theorem close_position_offsetting_order_witness :
    (((alookup (get_positions [⟨"binance",
        .ok [{ symbol := some "BTC/USDT", side := some "long", contracts := some 3 }],
        .ok ⟨none⟩, fun _ _ _ => .ok ()⟩]) "binance").getD []).find?
          (fun p => pget p "symbol" = .str "BTC/USDT") =
      some (normalize_position "binance"
        { symbol := some "BTC/USDT", side := some "long", contracts := some 3 })) ∧
    (close_position [⟨"binance",
        .ok [{ symbol := some "BTC/USDT", side := some "long", contracts := some 3 }],
        .ok ⟨none⟩, fun _ _ _ => .ok ()⟩] "binance" "BTC/USDT").2.length = 1 ∧
    ((pget (normalize_position "binance"
        { symbol := some "BTC/USDT", side := some "long", contracts := some 3 }) "side" =
          .str "buy" ∨
      pget (normalize_position "binance"
        { symbol := some "BTC/USDT", side := some "long", contracts := some 3 }) "side" =
          .str "long") →
      (close_position [⟨"binance",
        .ok [{ symbol := some "BTC/USDT", side := some "long", contracts := some 3 }],
        .ok ⟨none⟩, fun _ _ _ => .ok ()⟩] "binance" "BTC/USDT").2 =
        [⟨"binance", "BTC/USDT", "sell",
          pget (normalize_position "binance"
            { symbol := some "BTC/USDT", side := some "long", contracts := some 3 })
            "contracts"⟩]) :=
  ⟨by decide,
   (close_position_offsetting_order
     [⟨"binance",
       .ok [{ symbol := some "BTC/USDT", side := some "long", contracts := some 3 }],
       .ok ⟨none⟩, fun _ _ _ => .ok ()⟩] "binance" "BTC/USDT"
     (normalize_position "binance"
       { symbol := some "BTC/USDT", side := some "long", contracts := some 3 })
     (by decide)).1,
   (close_position_offsetting_order
     [⟨"binance",
       .ok [{ symbol := some "BTC/USDT", side := some "long", contracts := some 3 }],
       .ok ⟨none⟩, fun _ _ _ => .ok ()⟩] "binance" "BTC/USDT"
     (normalize_position "binance"
       { symbol := some "BTC/USDT", side := some "long", contracts := some 3 })
     (by decide)).2.1⟩

/-! ## Claim C8: webhook reply decoupled from execution -/

/-- C8: for every well-formed JSON body whose PIN matches the configured
one (or when none is configured), the webhook replies 200 `status: ok`,
and the reply does not depend on the order-creation oracle — no
exchange-execution outcome changes the webhook response. -/
theorem webhook_reply_independent_of_execution (webhook_pin : String)
    (oracle oracle' : OrderCall → Except String Unit)
    (exchange_names : List String) (data : List (String × String))
    (hpin : webhook_pin = "" ∨ (alookup data "PIN").getD "" = webhook_pin) :
    (trade_signal webhook_pin oracle exchange_names (some data)).1 = ⟨200, "ok"⟩ ∧
    (trade_signal webhook_pin oracle exchange_names (some data)).1 =
      (trade_signal webhook_pin oracle' exchange_names (some data)).1 := by
  have hcond : ¬ (webhook_pin ≠ "" ∧ (alookup data "PIN").getD "" ≠ webhook_pin) := by
    rcases hpin with h | h <;> simp [h]
  constructor <;> simp [trade_signal, hcond]

/-- C8 witness: with PIN "1234" supplied and configured, the reply is 200
both when the exchange accepts the order and when it rejects it. -/
theorem webhook_reply_independent_of_execution_witness :
    (("1234" : String) = "" ∨
      (alookup [("PIN", "1234"), ("EXCHANGE", "binance"), ("SYMBOL", "BTC/USDT"),
        ("SIDE", "buy"), ("ORDER_TYPE", "market"), ("QUANTITY", "2")] "PIN").getD ""
        = "1234") ∧
    ((trade_signal "1234" (fun _ => .ok ()) ["binance"]
        (some [("PIN", "1234"), ("EXCHANGE", "binance"), ("SYMBOL", "BTC/USDT"),
          ("SIDE", "buy"), ("ORDER_TYPE", "market"), ("QUANTITY", "2")])).1 = ⟨200, "ok"⟩ ∧
     (trade_signal "1234" (fun _ => .ok ()) ["binance"]
        (some [("PIN", "1234"), ("EXCHANGE", "binance"), ("SYMBOL", "BTC/USDT"),
          ("SIDE", "buy"), ("ORDER_TYPE", "market"), ("QUANTITY", "2")])).1 =
       (trade_signal "1234" (fun _ => .error "insufficient funds") ["binance"]
        (some [("PIN", "1234"), ("EXCHANGE", "binance"), ("SYMBOL", "BTC/USDT"),
          ("SIDE", "buy"), ("ORDER_TYPE", "market"), ("QUANTITY", "2")])).1) :=
  ⟨Or.inr (by decide),
   webhook_reply_independent_of_execution "1234" _ _ ["binance"] _ (Or.inr (by decide))⟩

/-! ## Claim C9: fan-out reads tolerate one failing exchange -/

/-- C9: an exchange whose position fetch raises still appears in the
`get_positions` result, mapped to the empty list, every other exchange
appears with its own normalized data, and an exchange whose balance fetch
raises contributes nothing to the summary totals — the rest of the fold is
unaffected. -/
theorem fanout_partial_results (exs : List ExchangeData) :
    ((get_positions exs).map Prod.fst = exs.map (fun ex => ex.name)) ∧
    (∀ ex ∈ exs, ∀ msg : String, ex.fetchPositions = .error msg →
      (ex.name, ([] : List (List (String × PVal)))) ∈ get_positions exs) ∧
    (∀ ex ∈ exs, ∀ raws : List RawPosition, ex.fetchPositions = .ok raws →
      (ex.name, (raws.filter (fun p => 0 < p.contracts.getD 0)).map
        (normalize_position ex.name)) ∈ get_positions exs) ∧
    (∀ (all_positions : List (String × List (List (String × PVal))))
        (st : SummaryStats) (ex : ExchangeData) (msg : String),
      ex.fetchBalance = .error msg → exchange_contribution all_positions st ex = st) := by
  refine ⟨get_positions_map_fst exs, ?_, ?_, ?_⟩
  · intro ex hex msg hmsg
    refine List.mem_map.mpr ⟨ex, hex, ?_⟩
    rw [hmsg]
  · intro ex hex raws hraws
    refine List.mem_map.mpr ⟨ex, hex, ?_⟩
    rw [hraws]
  · intro all_positions st ex msg hmsg
    unfold exchange_contribution
    rw [hmsg]

/-- C9 witness: with "binance" healthy and "bybit" raising on both
fetches, the snapshot still lists both exchanges, "bybit" maps to the
empty list, and the failing balance fetch leaves the running totals
untouched. -/
theorem fanout_partial_results_witness :
    ((⟨"bybit", .error "timeout", .error "timeout", fun _ _ _ => .error "down"⟩ :
      ExchangeData).fetchPositions = .error "timeout") ∧
    (("bybit", ([] : List (List (String × PVal)))) ∈ get_positions
      [⟨"binance", .ok [], .ok ⟨some 10⟩, fun _ _ _ => .ok ()⟩,
       ⟨"bybit", .error "timeout", .error "timeout", fun _ _ _ => .error "down"⟩]) ∧
    (exchange_contribution [] ⟨0, 0, 0⟩
      ⟨"bybit", .error "timeout", .error "timeout", fun _ _ _ => .error "down"⟩ = ⟨0, 0, 0⟩) :=
  ⟨rfl,
   (fanout_partial_results
      [⟨"binance", .ok [], .ok ⟨some 10⟩, fun _ _ _ => .ok ()⟩,
       ⟨"bybit", .error "timeout", .error "timeout", fun _ _ _ => .error "down"⟩]).2.1
     ⟨"bybit", .error "timeout", .error "timeout", fun _ _ _ => .error "down"⟩
     (List.Mem.tail _ (List.Mem.head _)) "timeout" rfl,
   (fanout_partial_results
      [⟨"binance", .ok [], .ok ⟨some 10⟩, fun _ _ _ => .ok ()⟩,
       ⟨"bybit", .error "timeout", .error "timeout", fun _ _ _ => .error "down"⟩]).2.2.2
     [] ⟨0, 0, 0⟩
     ⟨"bybit", .error "timeout", .error "timeout", fun _ _ _ => .error "down"⟩
     "timeout" rfl⟩

/-! ## Claim C10: only strictly positive positions survive the filter -/

theorem find?_positions_normalized (exs : List ExchangeData) (n : String)
    (pred : List (String × PVal) → Bool) (pos : List (String × PVal))
    (hfind : ((alookup (get_positions exs) n).getD []).find? pred = some pos) :
    ∃ p : RawPosition, pos = normalize_position n p ∧ 0 < p.contracts.getD 0 := by
  cases ha : alookup (get_positions exs) n with
  | none => rw [ha] at hfind; simp at hfind
  | some plist =>
    rw [ha] at hfind
    simp only [Option.getD_some] at hfind
    exact mem_entry_normalized exs (n, plist) (mem_of_alookup_eq_some _ _ _ ha) pos
      (List.mem_of_find?_eq_some hfind)

theorem close_position_call_positive (exs : List ExchangeData) (n s : String)
    (call : MarketOrderCall) (hc : call ∈ (close_position exs n s).2) :
    ∃ q : Rat, call.amount = .num q ∧ 0 < q := by
  unfold close_position at hc
  cases hex : exs.find? (fun ex => ex.name = n) with
  | none => rw [hex] at hc; simp at hc
  | some ex =>
    rw [hex] at hc
    simp only at hc
    cases hfind : ((alookup (get_positions exs) n).getD []).find?
        (fun pos => pget pos "symbol" = .str s) with
    | none => rw [hfind] at hc; simp at hc
    | some pos =>
      rw [hfind] at hc
      simp only at hc
      obtain ⟨p, hpos, hcp⟩ := find?_positions_normalized exs n _ pos hfind
      have hamount : call.amount = pget pos "contracts" := by
        by_cases hs : pget pos "side" = .str "buy" ∨ pget pos "side" = .str "long"
        · rw [if_pos hs] at hc
          cases ho : ex.createMarketOrder s "sell" (pget pos "contracts") <;>
            · rw [ho] at hc
              simp only [List.mem_singleton] at hc
              rw [hc]
        · rw [if_neg hs] at hc
          cases ho : ex.createMarketOrder s "buy" (pget pos "contracts") <;>
            · rw [ho] at hc
              simp only [List.mem_singleton] at hc
              rw [hc]
      refine ⟨p.contracts.getD 0, ?_, hcp⟩
      rw [hamount, hpos]
      exact pget_normalized_contracts n p

theorem inner_calls_from (exs : List ExchangeData) (n : String)
    (l : List (List (String × PVal))) :
    ∀ acc : List (String × OpResult) × List MarketOrderCall,
    ∀ call ∈ (l.foldl (close_all_step exs n) acc).2,
      call ∈ acc.2 ∨ ∃ s, call ∈ (close_position exs n s).2 := by
  induction l with
  | nil => exact fun acc call hc => Or.inl hc
  | cons pos rest ih =>
    intro acc call hc
    rw [List.foldl_cons] at hc
    rcases ih (close_all_step exs n acc pos) call hc with h | h
    · unfold close_all_step at h
      simp only at h
      rcases List.mem_append.mp h with h | h
      · exact Or.inl h
      · exact Or.inr ⟨_, h⟩
    · exact Or.inr h

theorem close_all_calls_from (exs : List ExchangeData) (call : MarketOrderCall)
    (hc : call ∈ (close_all_positions exs).2) :
    ∃ n s, call ∈ (close_position exs n s).2 := by
  unfold close_all_positions at hc
  have haux : ∀ (entries : List (String × List (List (String × PVal))))
      (acc : List (String × OpResult) × List MarketOrderCall),
      call ∈ (entries.foldl (fun a e => e.2.foldl (close_all_step exs e.1) a) acc).2 →
      call ∈ acc.2 ∨ ∃ n s, call ∈ (close_position exs n s).2 := by
    intro entries
    induction entries with
    | nil => exact fun acc hc => Or.inl hc
    | cons e rest ih =>
      intro acc hc
      rw [List.foldl_cons] at hc
      rcases ih _ hc with h | h
      · rcases inner_calls_from exs e.1 e.2 acc call h with h | ⟨s, hs⟩
        · exact Or.inl h
        · exact Or.inr ⟨e.1, s, hs⟩
      · exact Or.inr h
  rcases haux (get_positions exs) ([], []) hc with h | h
  · simp at h
  · exact h

/-- C10: every standardized position returned by `get_positions` has a
strictly positive contract count (zero or missing contract sizes are
filtered out), and consequently every market order issued by
`close_position` — and hence by `close_all_positions` — is sized by a
strictly positive contract count. -/
theorem positions_contracts_positive (exs : List ExchangeData) :
    (∀ entry ∈ get_positions exs, ∀ pos ∈ entry.2,
      ∃ q : Rat, pget pos "contracts" = .num q ∧ 0 < q) ∧
    (∀ n s : String, ∀ call ∈ (close_position exs n s).2,
      ∃ q : Rat, call.amount = .num q ∧ 0 < q) ∧
    (∀ call ∈ (close_all_positions exs).2,
      ∃ q : Rat, call.amount = .num q ∧ 0 < q) := by
  refine ⟨?_, ?_, ?_⟩
  · intro entry hentry pos hp
    obtain ⟨p, hpos, hcp⟩ := mem_entry_normalized exs entry hentry pos hp
    refine ⟨p.contracts.getD 0, ?_, hcp⟩
    rw [hpos]
    exact pget_normalized_contracts entry.1 p
  · exact fun n s call hc => close_position_call_positive exs n s call hc
  · intro call hc
    obtain ⟨n, s, hns⟩ := close_all_calls_from exs call hc
    exact close_position_call_positive exs n s call hns

/-- C10 witness: at a snapshot where the exchange reports a 2-contract
position and a 0-contract position, the surviving standardized position
has a positive contract count, and the close-all call list consists of
positively sized orders. -/
theorem positions_contracts_positive_witness :
    (("binance", [normalize_position "binance"
        { symbol := some "BTC/USDT", side := some "long", contracts := some 2 }]) ∈
      get_positions [⟨"binance",
        .ok [{ symbol := some "BTC/USDT", side := some "long", contracts := some 2 },
             { symbol := some "ETH/USDT", side := some "short", contracts := some 0 }],
        .ok ⟨none⟩, fun _ _ _ => .ok ()⟩]) ∧
    (normalize_position "binance"
        { symbol := some "BTC/USDT", side := some "long", contracts := some 2 } ∈
      [normalize_position "binance"
        { symbol := some "BTC/USDT", side := some "long", contracts := some 2 }]) ∧
    (∃ q : Rat,
      pget (normalize_position "binance"
        { symbol := some "BTC/USDT", side := some "long", contracts := some 2 })
        "contracts" = .num q ∧ 0 < q) :=
  ⟨by decide, by decide,
   (positions_contracts_positive [⟨"binance",
      .ok [{ symbol := some "BTC/USDT", side := some "long", contracts := some 2 },
           { symbol := some "ETH/USDT", side := some "short", contracts := some 0 }],
      .ok ⟨none⟩, fun _ _ _ => .ok ()⟩]).1
     ("binance", [normalize_position "binance"
        { symbol := some "BTC/USDT", side := some "long", contracts := some 2 }])
     (by decide)
     (normalize_position "binance"
        { symbol := some "BTC/USDT", side := some "long", contracts := some 2 })
     (by decide)⟩

/-! ## Claim C4: close-all attempts and result entries -/

theorem close_position_single_call (exs : List ExchangeData)
    (hn : (exs.map (fun ex => ex.name)).Nodup)
    (entry : String × List (List (String × PVal))) (hentry : entry ∈ get_positions exs)
    (pos : List (String × PVal)) (hp : pos ∈ entry.2) :
    ∃ c, (close_position exs entry.1 ((pget pos "symbol").toStr)).2 = [c] := by
  have hfsts : ((get_positions exs).map Prod.fst).Nodup := by
    rw [get_positions_map_fst]
    exact hn
  have ha : alookup (get_positions exs) entry.1 = some entry.2 :=
    alookup_of_mem_nodup _ _ _ hfsts (by rw [Prod.mk.eta]; exact hentry)
  have hconf : (exs.find? (fun ex => ex.name = entry.1)).isSome := by
    rw [List.find?_isSome]
    have hname : entry.1 ∈ exs.map (fun ex => ex.name) := by
      rw [← get_positions_map_fst]
      exact List.mem_map.mpr ⟨entry, hentry, rfl⟩
    obtain ⟨ex, hex, hn'⟩ := List.mem_map.mp hname
    exact ⟨ex, hex, by simp [hn']⟩
  obtain ⟨ex, hex⟩ := Option.isSome_iff_exists.mp hconf
  obtain ⟨p, hpos, _⟩ := mem_entry_normalized exs entry hentry pos hp
  have hpred : pget pos "symbol" = .str ((pget pos "symbol").toStr) := by
    rw [hpos, pget_normalized_symbol]
    rfl
  have hfind : (entry.2.find?
      (fun q => pget q "symbol" = .str ((pget pos "symbol").toStr))).isSome := by
    rw [List.find?_isSome]
    exact ⟨pos, hp, decide_eq_true hpred⟩
  obtain ⟨pos', hfind'⟩ := Option.isSome_iff_exists.mp hfind
  by_cases hs : pget pos' "side" = .str "buy" ∨ pget pos' "side" = .str "long"
  · refine ⟨⟨entry.1, (pget pos "symbol").toStr, "sell", pget pos' "contracts"⟩, ?_⟩
    unfold close_position
    rw [hex]
    simp only
    rw [ha]
    simp only [Option.getD_some]
    rw [hfind']
    simp only
    rw [if_pos hs]
    cases ho : ex.createMarketOrder ((pget pos "symbol").toStr) "sell"
        (pget pos' "contracts") <;> rfl
  · refine ⟨⟨entry.1, (pget pos "symbol").toStr, "buy", pget pos' "contracts"⟩, ?_⟩
    unfold close_position
    rw [hex]
    simp only
    rw [ha]
    simp only [Option.getD_some]
    rw [hfind']
    simp only
    rw [if_neg hs]
    cases ho : ex.createMarketOrder ((pget pos "symbol").toStr) "buy"
        (pget pos' "contracts") <;> rfl

theorem inner_fold_spec (exs : List ExchangeData) (n : String)
    (l : List (List (String × PVal))) :
    ∀ acc : List (String × OpResult) × List MarketOrderCall,
    (∀ pos ∈ l, ∃ c, (close_position exs n ((pget pos "symbol").toStr)).2 = [c]) →
    (acc.1.map Prod.fst ++
      l.map (fun pos => n ++ "_" ++ (pget pos "symbol").toStr)).Nodup →
    ((l.foldl (close_all_step exs n) acc).1.map Prod.fst =
      acc.1.map Prod.fst ++ l.map (fun pos => n ++ "_" ++ (pget pos "symbol").toStr)) ∧
    ((l.foldl (close_all_step exs n) acc).2.length = acc.2.length + l.length) := by
  induction l with
  | nil =>
    intro acc _ _
    simp
  | cons pos rest ih =>
    intro acc hone hnd
    rw [List.foldl_cons]
    obtain ⟨c, hc⟩ := hone pos (List.mem_cons_self _ _)
    have hkey : alookup acc.1 (n ++ "_" ++ (pget pos "symbol").toStr) = none := by
      rw [alookup_eq_none_iff]
      intro hmem
      exact (List.nodup_append.mp hnd).2.2 hmem (List.mem_cons_self _ _)
    have hstep1 : (close_all_step exs n acc pos).1 =
        acc.1 ++ [(n ++ "_" ++ (pget pos "symbol").toStr,
          (close_position exs n ((pget pos "symbol").toStr)).1)] := by
      unfold close_all_step
      simp only
      rw [dinsert_fresh _ _ _ hkey]
    have hstep2 : (close_all_step exs n acc pos).2 = acc.2 ++ [c] := by
      unfold close_all_step
      simp only
      rw [hc]
    have hnd' : ((close_all_step exs n acc pos).1.map Prod.fst ++
        rest.map (fun q => n ++ "_" ++ (pget q "symbol").toStr)).Nodup := by
      rw [hstep1, List.map_append]
      have : acc.1.map Prod.fst ++
            [(n ++ "_" ++ (pget pos "symbol").toStr,
              (close_position exs n ((pget pos "symbol").toStr)).1)].map Prod.fst ++
            rest.map (fun q => n ++ "_" ++ (pget q "symbol").toStr) =
          acc.1.map Prod.fst ++
            (pos :: rest).map (fun q => n ++ "_" ++ (pget q "symbol").toStr) := by
        rw [List.map_cons, List.append_assoc]
        rfl
      rw [this]
      exact hnd
    obtain ⟨ih1, ih2⟩ := ih (close_all_step exs n acc pos)
      (fun q hq => hone q (List.mem_cons_of_mem _ hq)) hnd'
    constructor
    · rw [ih1, hstep1, List.map_append, List.map_cons, List.append_assoc]
      rfl
    · rw [ih2, hstep2]
      simp only [List.length_append, List.length_cons, List.length_nil]
      omega

theorem outer_fold_spec (exs : List ExchangeData)
    (entries : List (String × List (List (String × PVal)))) :
    ∀ acc : List (String × OpResult) × List MarketOrderCall,
    (∀ e ∈ entries, ∀ pos ∈ e.2,
      ∃ c, (close_position exs e.1 ((pget pos "symbol").toStr)).2 = [c]) →
    (acc.1.map Prod.fst ++ entries.flatMap
      (fun e => e.2.map (fun pos => e.1 ++ "_" ++ (pget pos "symbol").toStr))).Nodup →
    ((entries.foldl (fun a e => e.2.foldl (close_all_step exs e.1) a) acc).1.map Prod.fst =
      acc.1.map Prod.fst ++ entries.flatMap
        (fun e => e.2.map (fun pos => e.1 ++ "_" ++ (pget pos "symbol").toStr))) ∧
    ((entries.foldl (fun a e => e.2.foldl (close_all_step exs e.1) a) acc).2.length =
      acc.2.length + (entries.map (fun e => e.2.length)).sum) := by
  induction entries with
  | nil =>
    intro acc _ _
    simp
  | cons e rest ih =>
    intro acc hone hnd
    rw [List.foldl_cons]
    rw [List.flatMap_cons] at hnd
    have hnd1 : (acc.1.map Prod.fst ++
        e.2.map (fun pos => e.1 ++ "_" ++ (pget pos "symbol").toStr)).Nodup := by
      have := hnd
      rw [← List.append_assoc] at this
      exact this.of_append_left
    obtain ⟨in1, in2⟩ := inner_fold_spec exs e.1 e.2 acc
      (hone e (List.mem_cons_self _ _)) hnd1
    have hnd2 : ((e.2.foldl (close_all_step exs e.1) acc).1.map Prod.fst ++
        rest.flatMap
          (fun q => q.2.map (fun pos => q.1 ++ "_" ++ (pget pos "symbol").toStr))).Nodup := by
      rw [in1, List.append_assoc]
      exact hnd
    obtain ⟨o1, o2⟩ := ih (e.2.foldl (close_all_step exs e.1) acc)
      (fun q hq pos hp => hone q (List.mem_cons_of_mem _ hq) pos hp) hnd2
    constructor
    · rw [o1, in1, List.flatMap_cons, List.append_assoc]
    · rw [o2, in2, List.map_cons, List.sum_cons]
      omega

/-- C4 (amended): an invocation of `close_all_positions` whose snapshot
discovers N open positions across the (distinctly named) exchanges issues
exactly N market-order close attempts — regardless of how many succeed —
and its result dictionary holds one entry per distinct
`exchange_symbol` result key, hence exactly N entries when the
discovered positions carry pairwise-distinct keys. (When two discovered
positions share an exchange and symbol, the later result overwrites the
earlier entry, so the dictionary holds fewer than N entries.) -/
theorem close_all_attempts_and_entries (exs : List ExchangeData)
    (hn : (exs.map (fun ex => ex.name)).Nodup)
    (hk : (closeAllKeys exs).Nodup) :
    (close_all_positions exs).2.length = numDiscovered exs ∧
    (close_all_positions exs).1.length = numDiscovered exs := by
  have hone : ∀ e ∈ get_positions exs, ∀ pos ∈ e.2,
      ∃ c, (close_position exs e.1 ((pget pos "symbol").toStr)).2 = [c] :=
    fun e he pos hp => close_position_single_call exs hn e he pos hp
  have hk' : (([] : List (String × OpResult)).map Prod.fst ++
      (get_positions exs).flatMap
        (fun e => e.2.map (fun pos => e.1 ++ "_" ++ (pget pos "symbol").toStr))).Nodup := by
    simpa [closeAllKeys] using hk
  obtain ⟨h1, h2⟩ := outer_fold_spec exs (get_positions exs) ([], []) hone hk'
  constructor
  · rw [close_all_positions, h2, numDiscovered]
    simp
  · have hlen : (close_all_positions exs).1.length =
        ((close_all_positions exs).1.map Prod.fst).length := by
      rw [List.length_map]
    rw [hlen, close_all_positions, h1]
    simp [numDiscovered, List.length_flatMap, Function.comp_def, List.length_map]

/-- C4 witness: two distinctly keyed positions on one exchange produce two
close attempts and two result entries. -/
theorem close_all_attempts_and_entries_witness :
    ((([⟨"binance",
        .ok [{ symbol := some "BTC/USDT", side := some "long", contracts := some 1 },
             { symbol := some "ETH/USDT", side := some "short", contracts := some 2 }],
        .ok ⟨none⟩, fun _ _ _ => .ok ()⟩] : List ExchangeData).map
          (fun ex => ex.name)).Nodup) ∧
    ((closeAllKeys [⟨"binance",
        .ok [{ symbol := some "BTC/USDT", side := some "long", contracts := some 1 },
             { symbol := some "ETH/USDT", side := some "short", contracts := some 2 }],
        .ok ⟨none⟩, fun _ _ _ => .ok ()⟩]).Nodup) ∧
    ((close_all_positions [⟨"binance",
        .ok [{ symbol := some "BTC/USDT", side := some "long", contracts := some 1 },
             { symbol := some "ETH/USDT", side := some "short", contracts := some 2 }],
        .ok ⟨none⟩, fun _ _ _ => .ok ()⟩]).2.length =
      numDiscovered [⟨"binance",
        .ok [{ symbol := some "BTC/USDT", side := some "long", contracts := some 1 },
             { symbol := some "ETH/USDT", side := some "short", contracts := some 2 }],
        .ok ⟨none⟩, fun _ _ _ => .ok ()⟩] ∧
     (close_all_positions [⟨"binance",
        .ok [{ symbol := some "BTC/USDT", side := some "long", contracts := some 1 },
             { symbol := some "ETH/USDT", side := some "short", contracts := some 2 }],
        .ok ⟨none⟩, fun _ _ _ => .ok ()⟩]).1.length =
      numDiscovered [⟨"binance",
        .ok [{ symbol := some "BTC/USDT", side := some "long", contracts := some 1 },
             { symbol := some "ETH/USDT", side := some "short", contracts := some 2 }],
        .ok ⟨none⟩, fun _ _ _ => .ok ()⟩]) :=
  ⟨by decide, by decide,
   close_all_attempts_and_entries
     [⟨"binance",
        .ok [{ symbol := some "BTC/USDT", side := some "long", contracts := some 1 },
             { symbol := some "ETH/USDT", side := some "short", contracts := some 2 }],
        .ok ⟨none⟩, fun _ _ _ => .ok ()⟩]
     (by decide) (by decide)⟩

/-- C4 counterexample to the claim as stated: a snapshot discovering N = 2
open positions that share the symbol "BTC/USDT" on one exchange (as
reported, e.g., for hedged long and short sides) issues 2 close attempts
but returns a result map with only 1 entry — the second result overwrites
the first under the shared key — not the N entries the claim requires. -/
theorem close_all_duplicate_symbol_collision :
    numDiscovered [⟨"binance",
        .ok [{ symbol := some "BTC/USDT", side := some "long", contracts := some 1 },
             { symbol := some "BTC/USDT", side := some "short", contracts := some 2 }],
        .ok ⟨none⟩, fun _ _ _ => .ok ()⟩] = 2 ∧
    (close_all_positions [⟨"binance",
        .ok [{ symbol := some "BTC/USDT", side := some "long", contracts := some 1 },
             { symbol := some "BTC/USDT", side := some "short", contracts := some 2 }],
        .ok ⟨none⟩, fun _ _ _ => .ok ()⟩]).2.length = 2 ∧
    (close_all_positions [⟨"binance",
        .ok [{ symbol := some "BTC/USDT", side := some "long", contracts := some 1 },
             { symbol := some "BTC/USDT", side := some "short", contracts := some 2 }],
        .ok ⟨none⟩, fun _ _ _ => .ok ()⟩]).1.length = 1 ∧
    (1 : Nat) ≠ 2 := by
  decide

end TradeMoon
